import Mathlib

/-!
# Verification of the chat-hub server

Shallow embedding of the chat-hub repository:

* the HTTP handlers of `backend/server.js` that the implicit claims target
  (message pagination `GET /api/messages/:channelId` and the admin toggle
  `POST /api/admin/users/:userId/toggle-admin`);
* the real-time signaling coordinator described in the specification
  (connection registry, auth gate, peer directory & broadcaster, relay
  router).  No source file of the repository implements this coordinator,
  so its model is built from the specification's own words.
-/

namespace ChatHub

/-! ## Message pagination: `GET /api/messages/:channelId` (server.js 408-454) -/

/-- A row of the `messages` table joined with `users` (the handler's
`SELECT m.*, u.profile_photo_url ... JOIN users u ON m.user_id = u.user_id`).
Only the columns the pagination logic inspects are kept: `id` (the SERIAL
primary key the cursors compare) and `channel_id` (the WHERE filter). -/
structure MsgRow where
  id : Nat
  channelId : Nat
deriving DecidableEq, Repr

/-- `parseInt(req.query.limit) || 20`: an absent or non-numeric parameter
(`none`) and an explicit `0` both fall back to the default 20. -/
def effectiveLimit : Option Nat → Nat
  | Option.none => 20
  | some 0 => 20
  | some (n + 1) => n + 1

/-- The SQL WHERE clause built by the handler: `m.channel_id = $1`, plus
`m.id < beforeId` when `beforeId` is supplied, else `m.id > sinceId` when
`sinceId` is supplied (the `if / else if` at lines 423-430 gives `beforeId`
precedence). -/
def rowMatches (channelId : Nat) (beforeId sinceId : Option Nat) (r : MsgRow) : Bool :=
  r.channelId == channelId &&
    match beforeId, sinceId with
    | some b, _ => decide (r.id < b)
    | Option.none, some s => decide (s < r.id)
    | Option.none, Option.none => true

/-- `ORDER BY m.id DESC`. -/
def sortByIdDesc (l : List MsgRow) : List MsgRow :=
  List.insertionSort (fun a b => b.id ≤ a.id) l

/-- `ORDER BY m.id ASC`. -/
def sortByIdAsc (l : List MsgRow) : List MsgRow :=
  List.insertionSort (fun a b => a.id ≤ b.id) l

/-- The handler's JSON response `{ messages, hasMore }`. -/
structure MessagesResponse where
  messages : List MsgRow
  hasMore : Bool
deriving DecidableEq, Repr

/-- The `GET /api/messages/:channelId` handler (server.js 408-454) on a
database state `db` (the joined rows).  It queries `limit + 1` rows with the
cursor's WHERE clause and order (`ASC` only in the `sinceId` branch, else
`DESC`), reports `hasMore` when the extra row came back, truncates to
`limit`, and reverses the slice unless `sinceId` was supplied. -/
def getMessages (db : List MsgRow) (channelId : Nat)
    (limitParam beforeId sinceId : Option Nat) : MessagesResponse :=
  let limit := effectiveLimit limitParam
  let filtered := db.filter (rowMatches channelId beforeId sinceId)
  let sorted :=
    if beforeId.isNone && sinceId.isSome then sortByIdAsc filtered
    else sortByIdDesc filtered
  let fetched := sorted.take (limit + 1)
  let hasMore := decide (limit < fetched.length)
  let messagesToSend := if hasMore then fetched.take limit else fetched
  let finalMessages := if sinceId.isNone then messagesToSend.reverse else messagesToSend
  ⟨finalMessages, hasMore⟩

/-! ## Admin toggle: `POST /api/admin/users/:userId/toggle-admin` (server.js 515-537) -/

/-- A row of the `users` table, restricted to the columns the toggle-admin
route reads or writes. -/
structure UserRow where
  userId : String
  isAdmin : Bool
deriving DecidableEq, Repr

/-- The JWT payload attached by `authenticateToken` (`req.user`). -/
structure AuthUser where
  userId : String
  isAdmin : Bool
deriving DecidableEq, Repr

/-- Outcome of the toggle-admin route: HTTP status, the `users` table after
the request, and whether the handler issued its UPDATE query. -/
structure AdminToggleResult where
  status : Nat
  db : List UserRow
  dbQueried : Bool
deriving DecidableEq, Repr

/-- The `POST /api/admin/users/:userId/toggle-admin` route (server.js
515-537), including the `authorizeAdmin` middleware: 403 for a non-admin
requester; 400 when the requester targets their own userId (before any
query); otherwise `UPDATE users SET is_admin = $1 WHERE user_id = $2`,
answering 404 when no row matched and 200 otherwise. -/
def toggleAdmin (requester : AuthUser) (targetId : String) (newIsAdmin : Bool)
    (db : List UserRow) : AdminToggleResult :=
  if !requester.isAdmin then ⟨403, db, false⟩
  else if requester.userId == targetId then ⟨400, db, false⟩
  else
    let db' := db.map fun u =>
      if u.userId == targetId then { u with isAdmin := newIsAdmin } else u
    if (db.filter (fun u => u.userId == targetId)).isEmpty then ⟨404, db', true⟩
    else ⟨200, db', true⟩

/-! ## Signaling core

No source file of the repository implements the signaling coordinator, so
everything in this section is modelled from the specification (sections
3-4: Connection Registry, Auth Gate, Peer Directory & Broadcaster, Relay
Router). -/

/-- Modelled from the spec: `Identity` — `{memberId, displayName, avatarRef}`
returned by the external Identity Verifier (spec section 3, "Identity"). -/
structure Identity where
  memberId : String
  displayName : String
  avatarRef : String
deriving DecidableEq, Repr

/-- Modelled from the spec: the connection state machine
`Connecting → Authenticated → Closed` (spec sections 3 and 4.4).  `Closed`
is terminal and closed entries are removed from the registry, so a registry
entry is only ever `connecting` or `authenticated`. -/
inductive ConnState where
  | connecting
  | authenticated
deriving DecidableEq, Repr

/-- Modelled from the spec: a registry entry for one transport connection
(spec section 3, "Connection"): `connectionId`, current `state`, and the
`identity` attached on successful auth (present only when Authenticated). -/
structure Conn where
  connectionId : Nat
  state : ConnState
  identity : Option Identity
deriving DecidableEq, Repr

/-- Modelled from the spec: the relay payload shape — `targetClientId`, an
optional caller-supplied `sourceClientId`, and an opaque negotiation body
(spec section 3, "Relay Message"). -/
structure RelayPayload where
  targetClientId : Nat
  sourceClientId : Option Nat
  body : String
deriving DecidableEq, Repr

/-- Modelled from the spec: the server→client wire messages of the message
catalogue (spec section 6), plus a relayed frame of arbitrary `type`. -/
inductive WireMsg where
  | connectionSuccess (clientId : Nat) (existingPeers : List (Nat × Identity))
  | newPeer (clientId : Nat) (identity : Identity)
  | peerLeft (clientId : Nat)
  | relayed (type : String) (payload : RelayPayload)
deriving DecidableEq, Repr

/-- A message sent by the server: destination connectionId and the frame. -/
abbrev Sent := Nat × WireMsg

/-- Modelled from the spec: the state of the signaling core — the Connection
Registry plus the Peer Directory the Broadcaster maintains (spec sections
4.1 and 4.3; the spec's invariant that the directory equals the
Authenticated filter of the registry is proved below, not assumed). -/
structure CoreState where
  registry : List Conn
  directory : List (Nat × Identity)
deriving DecidableEq, Repr

/-- The empty initial state: no connections, no peers. -/
def initState : CoreState := ⟨[], []⟩

/-- Registry lookup `get(connectionId)` (spec section 4.1). -/
def getConn (s : CoreState) (cid : Nat) : Option Conn :=
  s.registry.find? (fun c => c.connectionId == cid)

/-- Registry removal `remove(connectionId)`, idempotent (spec section 4.1). -/
def removeConn (reg : List Conn) (cid : Nat) : List Conn :=
  reg.filter (fun c => !(c.connectionId == cid))

/-- The currently-Authenticated entries of the registry. -/
def authConns (reg : List Conn) : List Conn :=
  reg.filter (fun c => c.state == ConnState.authenticated)

/-- Modelled from the spec: the join-sequence snapshot — the
`{connectionId, identity}` pairs of all other currently-Authenticated
connections (spec section 4.3, step 1). -/
def peerSnapshot (reg : List Conn) (self : Nat) : List (Nat × Identity) :=
  ((authConns reg).filter (fun c => !(c.connectionId == self))).filterMap
    (fun c => c.identity.map (fun i => (c.connectionId, i)))

/-- Modelled from the spec: the external events the signaling core reacts to
(spec section 2 control flow): transport accept, an `auth` frame whose
credential the Identity Verifier accepts (carrying the verified identity)
or rejects, the auth-deadline timer firing, a non-`auth` inbound frame, and
transport close. -/
inductive Event where
  | register (cid : Nat)
  | authValid (cid : Nat) (ident : Identity)
  | authInvalid (cid : Nat)
  | timeout (cid : Nat)
  | clientMsg (cid : Nat) (type : String) (payload : RelayPayload)
  | close (cid : Nat)
deriving DecidableEq, Repr

/-- Modelled from the spec: one serialized step of the signaling core
(spec sections 4.1-4.4), returning the new state and the frames sent.

* `register`: create a provisional `Connecting` entry (fresh id; a colliding
  id is refused so ids stay unique).
* `authValid` on a `Connecting` entry: attach the identity, transition to
  `Authenticated`, record the peer in the directory, send
  `connection-success` with the snapshot of the other authenticated peers,
  and broadcast `new-peer` to each of them (spec section 4.3 join sequence).
  On any other entry — or after the connection was closed — it is a no-op
  (the auth/timeout race resolves to a no-op, spec section 4.2).
* `authInvalid` / `timeout` on a `Connecting` entry: force-close, i.e.
  remove the entry; no broadcast (spec section 4.2).  A cancelled timer or
  an unknown id is a no-op.
* `clientMsg`: ignored before authentication and for `auth` frames;
  otherwise the Relay Router forwards the frame to `targetClientId` with
  `sourceClientId` overwritten by the sender's id, provided the target
  exists and is Authenticated; else it is silently dropped (spec 4.4).
* `close`: remove the entry; if it was Authenticated, drop it from the
  directory and broadcast `peer-left` to every remaining authenticated
  connection (spec section 4.3 leave sequence). -/
def step (s : CoreState) (e : Event) : CoreState × List Sent :=
  match e with
  | .register cid =>
    if (getConn s cid).isSome then (s, [])
    else ({ s with registry := s.registry ++ [⟨cid, .connecting, none⟩] }, [])
  | .authValid cid ident =>
    match getConn s cid with
    | some c =>
      if c.state = .connecting then
        let snapshot := peerSnapshot s.registry cid
        let others := (authConns s.registry).filter (fun c2 => !(c2.connectionId == cid))
        let reg' := s.registry.map fun c2 =>
          if c2.connectionId == cid then
            { c2 with state := .authenticated, identity := some ident }
          else c2
        (⟨reg', s.directory ++ [(cid, ident)]⟩,
          (cid, .connectionSuccess cid snapshot) ::
            others.map (fun c2 => (c2.connectionId, .newPeer cid ident)))
      else (s, [])
    | none => (s, [])
  | .authInvalid cid =>
    match getConn s cid with
    | some c =>
      if c.state = .connecting then (⟨removeConn s.registry cid, s.directory⟩, [])
      else (s, [])
    | none => (s, [])
  | .timeout cid =>
    match getConn s cid with
    | some c =>
      if c.state = .connecting then (⟨removeConn s.registry cid, s.directory⟩, [])
      else (s, [])
    | none => (s, [])
  | .clientMsg cid ty payload =>
    if ty = "auth" then (s, [])
    else
      match getConn s cid with
      | some sender =>
        if sender.state = .authenticated then
          match getConn s payload.targetClientId with
          | some target =>
            if target.state = .authenticated then
              (s, [(payload.targetClientId,
                    .relayed ty { payload with sourceClientId := some cid })])
            else (s, [])
          | none => (s, [])
        else (s, [])
      | none => (s, [])
  | .close cid =>
    match getConn s cid with
    | some c =>
      let reg' := removeConn s.registry cid
      if c.state = .authenticated then
        (⟨reg', s.directory.filter (fun p => !(p.1 == cid))⟩,
          (authConns reg').map (fun c2 => (c2.connectionId, .peerLeft cid)))
      else (⟨reg', s.directory⟩, [])
    | none => (s, [])

/-- Run the core from a given state over a list of events, accumulating all
sent frames in order. -/
def runFrom (s : CoreState) : List Event → CoreState × List Sent
  | [] => (s, [])
  | e :: es =>
    ((runFrom (step s e).1 es).1, (step s e).2 ++ (runFrom (step s e).1 es).2)

/-- Run the core from the initial state. -/
def run (es : List Event) : CoreState × List Sent := runFrom initState es

/-- `cid` occurs in a frame as a peer announcement: listed in a
`connection-success.existingPeers` snapshot or named by a `new-peer`. -/
def mentionsAsPeer (cid : Nat) : WireMsg → Prop
  | .connectionSuccess _ peers => ∃ p ∈ peers, p.1 = cid
  | .newPeer c _ => c = cid
  | .peerLeft _ => False
  | .relayed _ _ => False

/-- The sent frame is a `new-peer` for `joined` delivered to `dest`. -/
def isNewPeerFor (dest joined : Nat) : Sent → Bool
  | (d, .newPeer c _) => d == dest && c == joined
  | _ => false

/-- The sent frame is a `peer-left` for `departed` delivered to `dest`. -/
def isPeerLeftFor (dest departed : Nat) : Sent → Bool
  | (d, .peerLeft c) => d == dest && c == departed
  | _ => false

/-! ## Theorems -/

/-- A fixed two-peer state used by the concrete witnesses below:
connections 1 (Alice) and 2 (Bob), both Authenticated. -/
def aliceId : Identity := ⟨"mA", "Alice", "a.png"⟩

/-- Bob's identity for the witness states. -/
def bobId : Identity := ⟨"mB", "Bob", "b.png"⟩

/-- Connection 1, authenticated as Alice. -/
def conn1 : Conn := ⟨1, .authenticated, some aliceId⟩

/-- Connection 2, authenticated as Bob. -/
def conn2 : Conn := ⟨2, .authenticated, some bobId⟩

/-- Connection 3, still connecting (unauthenticated). -/
def conn3 : Conn := ⟨3, .connecting, none⟩

/-- Witness state: connections 1 and 2 authenticated, 3 connecting. -/
def twoPeerState : CoreState :=
  ⟨[conn1, conn2, conn3], [(1, aliceId), (2, bobId)]⟩

/-- C1: a non-`auth` message from an authenticated connection `X` addressed
to an authenticated connection `Y` is delivered to `Y` with the same type
and the original payload, except that `sourceClientId` is overwritten with
`X`'s connectionId; the state is unchanged. -/
theorem relay_delivers (s : CoreState) (X Y : Nat) (cx cy : Conn)
    (ty : String) (p : RelayPayload)
    (hx : getConn s X = some cx) (hxa : cx.state = .authenticated)
    (hy : getConn s Y = some cy) (hya : cy.state = .authenticated)
    (hty : ty ≠ "auth") (htgt : p.targetClientId = Y) :
    step s (.clientMsg X ty p) =
      (s, [(Y, .relayed ty { p with sourceClientId := some X })]) := by
  subst htgt
  simp [step, hty, hx, hxa, hy, hya]

/-- Witness for C1 on `twoPeerState`: 1 sends an offer to 2; 2 receives it
with `sourceClientId = 1` replacing the caller-supplied `7`. -/
theorem relay_delivers_witness :
    step twoPeerState (.clientMsg 1 "offer" ⟨2, some 7, "sdp"⟩) =
      (twoPeerState, [(2, .relayed "offer" ⟨2, some 1, "sdp"⟩)]) :=
  relay_delivers twoPeerState 1 2 conn1 conn2 "offer" ⟨2, some 7, "sdp"⟩
    rfl rfl rfl rfl (by decide) rfl

/-- C4: a relay message from an authenticated sender whose target is absent
from the registry, or present but not Authenticated, is dropped: the state
is unchanged and no frame at all is sent (in particular none to the
sender). -/
theorem relay_drops_unroutable (s : CoreState) (X : Nat) (cx : Conn)
    (ty : String) (p : RelayPayload)
    (hx : getConn s X = some cx) (hxa : cx.state = .authenticated)
    (hty : ty ≠ "auth")
    (htgt : getConn s p.targetClientId = none ∨
      ∃ ct, getConn s p.targetClientId = some ct ∧ ct.state ≠ .authenticated) :
    step s (.clientMsg X ty p) = (s, []) := by
  rcases htgt with h | ⟨ct, h, hct⟩
  · simp [step, hty, hx, hxa, h]
  · simp [step, hty, hx, hxa, h, hct]

/-- Witness for C4 on `twoPeerState`: an offer to the unknown id 99 and an
offer to the still-connecting connection 3 both vanish without any reply. -/
theorem relay_drops_unroutable_witness :
    step twoPeerState (.clientMsg 1 "offer" ⟨99, none, "x"⟩) = (twoPeerState, []) ∧
    step twoPeerState (.clientMsg 1 "offer" ⟨3, none, "x"⟩) = (twoPeerState, []) :=
  ⟨relay_drops_unroutable twoPeerState 1 conn1 "offer" ⟨99, none, "x"⟩
      rfl rfl (by decide) (Or.inl rfl),
   relay_drops_unroutable twoPeerState 1 conn1 "offer" ⟨3, none, "x"⟩
      rfl rfl (by decide) (Or.inr ⟨conn3, rfl, by decide⟩)⟩

/-- Counterexample to C10 as stated: a non-admin authenticated requester
targeting their own userId is stopped by the `authorizeAdmin` middleware
(server.js 172-177) with status 403 — not the claimed 400. -/
theorem toggleAdmin_self_nonadmin_403 :
    (toggleAdmin ⟨"u2", false⟩ "u2" true [⟨"u2", false⟩]).status = 403 ∧
    (toggleAdmin ⟨"u2", false⟩ "u2" true [⟨"u2", false⟩]).status ≠ 400 := by
  decide

/-- C10 (amended): a self-targeting request never issues a database query
and never changes any `is_admin` flag: an admin requester gets 400 from the
handler's self-check, a non-admin requester gets 403 from the
`authorizeAdmin` middleware — in both cases before any query, with the
users table unchanged. -/
theorem toggleAdmin_self_rejected (requester : AuthUser) (newIsAdmin : Bool)
    (db : List UserRow) :
    (requester.isAdmin = true →
      toggleAdmin requester requester.userId newIsAdmin db = ⟨400, db, false⟩) ∧
    (requester.isAdmin = false →
      toggleAdmin requester requester.userId newIsAdmin db = ⟨403, db, false⟩) := by
  constructor <;> intro hadmin <;> simp [toggleAdmin, hadmin]

/-- Witness for the amended C10: admin `u1` toggling `u1` gets 400 and
non-admin `u2` toggling `u2` gets 403; the table is untouched either way. -/
theorem toggleAdmin_self_rejected_witness :
    toggleAdmin ⟨"u1", true⟩ "u1" false [⟨"u1", true⟩, ⟨"u2", false⟩] =
      ⟨400, [⟨"u1", true⟩, ⟨"u2", false⟩], false⟩ ∧
    toggleAdmin ⟨"u2", false⟩ "u2" true [⟨"u1", true⟩, ⟨"u2", false⟩] =
      ⟨403, [⟨"u1", true⟩, ⟨"u2", false⟩], false⟩ :=
  ⟨(toggleAdmin_self_rejected ⟨"u1", true⟩ false
      [⟨"u1", true⟩, ⟨"u2", false⟩]).1 rfl,
   (toggleAdmin_self_rejected ⟨"u2", false⟩ true
      [⟨"u1", true⟩, ⟨"u2", false⟩]).2 rfl⟩

/-- C8: the response of `GET /api/messages/:channelId` carries at most
`limit` messages (default 20), and `hasMore` holds exactly when strictly
more than `limit` rows of the channel satisfy the cursor's WHERE clause —
as decided by fetching `limit + 1` rows. -/
theorem getMessages_limit_hasMore (db : List MsgRow) (channelId : Nat)
    (limitParam beforeId sinceId : Option Nat) :
    (getMessages db channelId limitParam beforeId sinceId).messages.length
        ≤ effectiveLimit limitParam ∧
    ((getMessages db channelId limitParam beforeId sinceId).hasMore = true ↔
      effectiveLimit limitParam <
        (db.filter (rowMatches channelId beforeId sinceId)).length) := by
  simp only [getMessages]
  set limit := effectiveLimit limitParam with hl
  set filtered := db.filter (rowMatches channelId beforeId sinceId) with hfil
  set sorted := if beforeId.isNone && sinceId.isSome then sortByIdAsc filtered
    else sortByIdDesc filtered with hsorted
  have hslen : sorted.length = filtered.length := by
    rw [hsorted]
    split <;> simp [sortByIdAsc, sortByIdDesc, List.length_insertionSort]
  set fetched := sorted.take (limit + 1) with hfetch
  have hflen : fetched.length = min (limit + 1) filtered.length := by
    rw [hfetch, List.length_take, hslen]
  have core : (if decide (limit < fetched.length) = true
      then fetched.take limit else fetched).length ≤ limit := by
    split
    · simp [List.length_take]
    · next h =>
      simp only [decide_eq_true_eq] at h
      omega
  constructor
  · split
    · rw [List.length_reverse]; exact core
    · exact core
  · rw [decide_eq_true_eq, hflen]
    simp [Nat.lt_min]

/-- Totality of the ascending comparison used by the pagination model. -/
instance : IsTotal MsgRow (fun a b => a.id ≤ b.id) :=
  ⟨fun a b => Nat.le_total a.id b.id⟩

/-- Transitivity of the ascending comparison used by the pagination model. -/
instance : IsTrans MsgRow (fun a b => a.id ≤ b.id) :=
  ⟨fun _ _ _ h1 h2 => Nat.le_trans h1 h2⟩

/-- Totality of the descending comparison used by the pagination model. -/
instance : IsTotal MsgRow (fun a b => b.id ≤ a.id) :=
  ⟨fun a b => Nat.le_total b.id a.id⟩

/-- Transitivity of the descending comparison used by the pagination model. -/
instance : IsTrans MsgRow (fun a b => b.id ≤ a.id) :=
  ⟨fun _ _ _ h1 h2 => Nat.le_trans h2 h1⟩

/-- Rows pairwise ascending by `≤` on ids with no duplicate ids are
pairwise ascending by `<`. -/
lemma pairwise_lt_of_le_nodup {l : List MsgRow}
    (hle : l.Pairwise (fun a b => a.id ≤ b.id))
    (hnd : (l.map MsgRow.id).Nodup) :
    l.Pairwise (fun a b => a.id < b.id) := by
  have hne : l.Pairwise (fun a b => a.id ≠ b.id) := List.pairwise_map.mp hnd
  exact (hle.and hne).imp fun h => lt_of_le_of_ne h.1 h.2

/-- Reversing a `≥`-sorted duplicate-free row list gives a strictly
ascending one. -/
lemma pairwise_lt_reverse_of_ge_nodup {l : List MsgRow}
    (hge : l.Pairwise (fun a b => b.id ≤ a.id))
    (hnd : (l.map MsgRow.id).Nodup) :
    l.reverse.Pairwise (fun a b => a.id < b.id) := by
  rw [List.pairwise_reverse]
  have hne : l.Pairwise (fun a b => a.id ≠ b.id) := List.pairwise_map.mp hnd
  exact (hge.and hne).imp fun h => lt_of_le_of_ne h.1 (Ne.symm h.2)

/-- Counterexample to C9 as stated: a request supplying BOTH cursors
(`beforeId = 10`, `sinceId = 0` — both truthy strings in the handler) takes
the `beforeId` branch and fetches descending, but the final reverse is
guarded by `!sinceId` alone (server.js 444), so the response comes back in
strictly DESCENDING id order. -/
theorem getMessages_both_cursors_not_ascending :
    ¬ (getMessages [⟨1, 1⟩, ⟨2, 1⟩] 1 Option.none
        (some 10) (some 0)).messages.Pairwise (fun a b => a.id < b.id) := by
  decide

/-- C9 (amended): for every request in which `beforeId` and `sinceId` are
not both supplied, the response's messages are in strictly ascending id
order (ids are unique, being the SERIAL primary key): the default and
`beforeId` modes fetch descending and reverse the slice, the `sinceId` mode
fetches ascending and leaves it unreversed. -/
theorem getMessages_ascending (db : List MsgRow) (channelId : Nat)
    (limitParam beforeId sinceId : Option Nat)
    (hnd : (db.map MsgRow.id).Nodup)
    (hcur : beforeId = Option.none ∨ sinceId = Option.none) :
    (getMessages db channelId limitParam beforeId sinceId).messages.Pairwise
      (fun a b => a.id < b.id) := by
  simp only [getMessages]
  set limit := effectiveLimit limitParam with hl
  set filtered := db.filter (rowMatches channelId beforeId sinceId) with hfil
  have hndf : (filtered.map MsgRow.id).Nodup :=
    hnd.sublist ((List.filter_sublist db).map MsgRow.id)
  by_cases hs : sinceId = Option.none
  · subst hs
    simp only [Option.isSome_none, Bool.and_false, Bool.false_eq_true, if_false,
      Option.isNone_none, if_true]
    have hsorted : (sortByIdDesc filtered).Pairwise (fun a b => b.id ≤ a.id) :=
      List.sorted_insertionSort _ filtered
    have hnds : ((sortByIdDesc filtered).map MsgRow.id).Nodup :=
      ((List.perm_insertionSort _ filtered).map MsgRow.id).symm.nodup hndf
    have hsub : ∀ l : List MsgRow, l.Sublist (sortByIdDesc filtered) →
        l.reverse.Pairwise (fun a b => a.id < b.id) := fun l hsl =>
      pairwise_lt_reverse_of_ge_nodup (hsorted.sublist hsl)
        (hnds.sublist (hsl.map MsgRow.id))
    split
    · exact hsub _ ((List.take_sublist _ _).trans (List.take_sublist _ _))
    · exact hsub _ (List.take_sublist _ _)
  · have hb : beforeId = Option.none := by
      rcases hcur with h | h
      · exact h
      · exact absurd h hs
    subst hb
    rcases Option.ne_none_iff_exists.mp (by exact hs) with ⟨v, hv⟩
    rw [← hv]
    simp only [Option.isNone_none, Option.isSome_some, Bool.and_true, if_true,
      Option.isNone_some, Bool.false_eq_true, if_false]
    have hsorted : (sortByIdAsc filtered).Pairwise (fun a b => a.id ≤ b.id) :=
      List.sorted_insertionSort _ filtered
    have hnds : ((sortByIdAsc filtered).map MsgRow.id).Nodup :=
      ((List.perm_insertionSort _ filtered).map MsgRow.id).symm.nodup hndf
    have hsub : ∀ l : List MsgRow, l.Sublist (sortByIdAsc filtered) →
        l.Pairwise (fun a b => a.id < b.id) := fun l hsl =>
      pairwise_lt_of_le_nodup (hsorted.sublist hsl)
        (hnds.sublist (hsl.map MsgRow.id))
    split
    · exact hsub _ ((List.take_sublist _ _).trans (List.take_sublist _ _))
    · exact hsub _ (List.take_sublist _ _)

/-- Witness for the amended C9: three messages fetched with `sinceId = 0`
come back as ids 1, 2, 3. -/
theorem getMessages_ascending_witness :
    ([(⟨2, 1⟩ : MsgRow), ⟨1, 1⟩, ⟨3, 1⟩].map MsgRow.id).Nodup ∧
    (getMessages [⟨2, 1⟩, ⟨1, 1⟩, ⟨3, 1⟩] 1 Option.none Option.none
        (some 0)).messages.Pairwise (fun a b => a.id < b.id) :=
  ⟨by decide,
   getMessages_ascending [⟨2, 1⟩, ⟨1, 1⟩, ⟨3, 1⟩] 1 Option.none Option.none
     (some 0) (by decide) (Or.inl rfl)⟩

/-- A successful registry lookup returns an entry carrying the looked-up
connectionId. -/
lemma getConn_key {s : CoreState} {cid : Nat} {c : Conn}
    (h : getConn s cid = some c) : c.connectionId = cid := by
  have := List.find?_some h
  simpa using this

/-- A successful registry lookup returns a registry member. -/
lemma getConn_mem {s : CoreState} {cid : Nat} {c : Conn}
    (h : getConn s cid = some c) : c ∈ s.registry :=
  List.mem_of_find?_eq_some h

/-- In a registry with pairwise distinct connectionIds, filtering by a
predicate that forces the connectionId of a found entry yields exactly that
entry. -/
lemma filter_eq_single_of_nodup (reg : List Conn) (p : Conn → Bool)
    (cid : Nat) (c : Conn)
    (hnd : (reg.map Conn.connectionId).Nodup)
    (hfind : reg.find? (fun c' => c'.connectionId == cid) = some c)
    (hkey : ∀ c', p c' = true → c'.connectionId = cid)
    (hc : p c = true) :
    reg.filter p = [c] := by
  induction reg with
  | nil => simp at hfind
  | cons a t ih =>
    rw [List.map_cons, List.nodup_cons] at hnd
    by_cases ha : a.connectionId = cid
    · have hfa : (fun c' => c'.connectionId == cid) a = true := by simpa using ha
      rw [List.find?_cons_of_pos t hfa] at hfind
      obtain rfl : a = c := by injection hfind
      rw [List.filter_cons, if_pos hc]
      have : t.filter p = [] := by
        rw [List.filter_eq_nil_iff]
        intro x hx hpx
        exact hnd.1 (ha ▸ hkey x hpx ▸ List.mem_map.mpr ⟨x, hx, rfl⟩)
      rw [this]
    · have hfa : ¬ (fun c' => c'.connectionId == cid) a = true := by simpa using ha
      rw [List.find?_cons_of_neg t hfa] at hfind
      have hpa : ¬ p a = true := fun h => ha (hkey a h)
      rw [List.filter_cons, if_neg hpa]
      exact ih hnd.2 hfind

/-- C2: when connection `B` (still Connecting) presents a valid credential
while `A` is already Authenticated, the join sequence sends `B` a
`connection-success` whose `existingPeers` snapshot contains `A` and never
contains `B` itself, and sends `A` exactly one `new-peer` announcing `B`. -/
theorem join_announces (s : CoreState) (A B : Nat) (ca cb : Conn)
    (iA iB : Identity)
    (hnd : (s.registry.map Conn.connectionId).Nodup)
    (ha : getConn s A = some ca) (haa : ca.state = .authenticated)
    (hai : ca.identity = some iA)
    (hb : getConn s B = some cb) (hbc : cb.state = .connecting) :
    (B, WireMsg.connectionSuccess B (peerSnapshot s.registry B)) ∈
        (step s (.authValid B iB)).2 ∧
    (A, iA) ∈ peerSnapshot s.registry B ∧
    (∀ p ∈ peerSnapshot s.registry B, p.1 ≠ B) ∧
    ((step s (.authValid B iB)).2.filter (isNewPeerFor A B)).length = 1 := by
  have hkeyA : ca.connectionId = A := getConn_key ha
  have hmemA : ca ∈ s.registry := getConn_mem ha
  have hAB : A ≠ B := by
    intro h
    rw [h, hb] at ha
    obtain rfl : cb = ca := by injection ha
    rw [haa] at hbc
    exact ConnState.noConfusion hbc
  have hout : (step s (.authValid B iB)).2 =
      (B, .connectionSuccess B (peerSnapshot s.registry B)) ::
        ((authConns s.registry).filter (fun c2 => !(c2.connectionId == B))).map
          (fun c2 => (c2.connectionId, .newPeer B iB)) := by
    simp [step, hb, hbc]
  have hcaIn : ca ∈ (authConns s.registry).filter (fun c2 => !(c2.connectionId == B)) := by
    rw [List.mem_filter]
    refine ⟨List.mem_filter.mpr ⟨hmemA, ?_⟩, ?_⟩
    · simp [haa]
    · simp [hkeyA, hAB]
  refine ⟨?_, ?_, ?_, ?_⟩
  · rw [hout]; exact List.mem_cons_self _ _
  · rw [peerSnapshot, List.mem_filterMap]
    exact ⟨ca, hcaIn, by rw [hai, hkeyA]; rfl⟩
  · intro p hp
    rw [peerSnapshot, List.mem_filterMap] at hp
    obtain ⟨c2, hc2, hmap⟩ := hp
    rw [List.mem_filter] at hc2
    have hne : c2.connectionId ≠ B := by simpa using hc2.2
    cases hid : c2.identity with
    | none => rw [hid] at hmap; exact absurd hmap (by simp)
    | some i2 =>
      rw [hid] at hmap
      rw [Option.map_some'] at hmap
      obtain rfl : (c2.connectionId, i2) = p := by injection hmap
      exact hne
  · rw [hout, List.filter_cons]
    have hhead : isNewPeerFor A B (B, WireMsg.connectionSuccess B (peerSnapshot s.registry B)) = false := rfl
    rw [hhead]
    simp only [Bool.false_eq_true, if_false]
    rw [List.filter_map, List.length_map]
    have hcomp : (isNewPeerFor A B ∘ fun c2 : Conn => (c2.connectionId, WireMsg.newPeer B iB)) =
        fun c2 : Conn => c2.connectionId == A := by
      funext c2
      simp [isNewPeerFor, Function.comp]
    rw [hcomp, List.filter_filter, authConns, List.filter_filter]
    rw [filter_eq_single_of_nodup s.registry _ A ca hnd ha ?hkey ?hc]
    · rfl
    case hkey =>
      intro c' h
      rw [Bool.and_eq_true, Bool.and_eq_true] at h
      exact Nat.eq_of_beq_eq_true (by simpa using h.1.1)
    case hc =>
      simp [hkeyA, hAB, haa]

/-- Carol's identity: used by the join witness. -/
def carolId : Identity := ⟨"mC", "Carol", "c.png"⟩

/-- Witness for C2 on `twoPeerState`: connection 3 authenticates as Carol;
its snapshot contains Alice (1) and not itself, and 1 gets exactly one
`new-peer` for 3. -/
theorem join_announces_witness :
    (3, WireMsg.connectionSuccess 3 (peerSnapshot twoPeerState.registry 3)) ∈
        (step twoPeerState (.authValid 3 carolId)).2 ∧
    (1, aliceId) ∈ peerSnapshot twoPeerState.registry 3 ∧
    (∀ p ∈ peerSnapshot twoPeerState.registry 3, p.1 ≠ 3) ∧
    ((step twoPeerState (.authValid 3 carolId)).2.filter (isNewPeerFor 1 3)).length = 1 :=
  join_announces twoPeerState 1 3 conn1 conn3 aliceId carolId
    (by decide) rfl rfl rfl rfl rfl

/-- Looking up a connection after its own removal fails. -/
lemma getConn_remove_self (reg : List Conn) (dir : List (Nat × Identity)) (cid : Nat) :
    getConn ⟨removeConn reg cid, dir⟩ cid = none := by
  rw [getConn, List.find?_eq_none]
  intro x hx
  rw [removeConn, List.mem_filter] at hx
  simpa using hx.2

/-- Removing one connection does not disturb the lookup of another. -/
lemma getConn_remove_other (reg : List Conn) (dir dir' : List (Nat × Identity))
    (cid0 cid : Nat) (h : cid ≠ cid0) :
    getConn ⟨removeConn reg cid0, dir'⟩ cid = getConn ⟨reg, dir⟩ cid := by
  rw [getConn, getConn, removeConn]
  induction reg with
  | nil => rfl
  | cons a t ih =>
    rw [List.filter_cons]
    by_cases ha : a.connectionId = cid0
    · rw [if_neg (by simp [ha])]
      rw [List.find?_cons_of_neg t (by simp [ha, h.symm])]
      exact ih
    · rw [if_pos (by simp [ha])]
      by_cases hac : a.connectionId = cid
      · rw [List.find?_cons_of_pos _ (by simp [hac]),
          List.find?_cons_of_pos t (by simp [hac])]
      · rw [List.find?_cons_of_neg _ (by simp [hac]),
          List.find?_cons_of_neg t (by simp [hac])]
        exact ih

/-- C7: closing an Authenticated connection removes it from the Registry and
broadcasts `peer-left` with its id to exactly the remaining Authenticated
connections — each other authenticated connection receives it exactly once —
while closing a still-Connecting connection emits nothing at all. -/
theorem close_broadcasts (s : CoreState) (cid : Nat) (c : Conn)
    (hnd : (s.registry.map Conn.connectionId).Nodup)
    (hc : getConn s cid = some c) :
    (c.state = .authenticated →
      getConn (step s (.close cid)).1 cid = none ∧
      (step s (.close cid)).2 =
        (authConns (removeConn s.registry cid)).map
          (fun c2 => (c2.connectionId, .peerLeft cid)) ∧
      (∀ (A : Nat) (cA : Conn), getConn s A = some cA →
        cA.state = .authenticated → A ≠ cid →
        ((step s (.close cid)).2.filter (isPeerLeftFor A cid)).length = 1)) ∧
    (c.state = .connecting → (step s (.close cid)).2 = []) := by
  constructor
  · intro hauth
    have hstep1 : (step s (.close cid)).1 =
        ⟨removeConn s.registry cid, s.directory.filter (fun p => !(p.1 == cid))⟩ := by
      simp [step, hc, hauth]
    have hout : (step s (.close cid)).2 =
        (authConns (removeConn s.registry cid)).map
          (fun c2 => (c2.connectionId, .peerLeft cid)) := by
      simp [step, hc, hauth]
    refine ⟨?_, hout, ?_⟩
    · rw [hstep1]; exact getConn_remove_self _ _ _
    · intro A cA hA hAa hAcid
      rw [hout, List.filter_map, List.length_map]
      have hcomp : (isPeerLeftFor A cid ∘
          fun c2 : Conn => (c2.connectionId, WireMsg.peerLeft cid)) =
          fun c2 : Conn => c2.connectionId == A := by
        funext c2
        simp [isPeerLeftFor, Function.comp]
      rw [hcomp, authConns, List.filter_filter, removeConn, List.filter_filter]
      rw [filter_eq_single_of_nodup s.registry _ A cA hnd hA ?hkey ?hcA]
      · rfl
      case hkey =>
        intro c' h
        rw [Bool.and_eq_true, Bool.and_eq_true] at h
        exact Nat.eq_of_beq_eq_true (by simpa using h.1.1)
      case hcA =>
        simp [getConn_key hA, hAcid, hAa]
  · intro hconn
    simp [step, hc, hconn]

/-- Witness for C7 on `twoPeerState`: closing 2 removes it and delivers
exactly one `peer-left` to 1; closing the never-authenticated 3 emits
nothing. -/
theorem close_broadcasts_witness :
    (getConn (step twoPeerState (.close 2)).1 2 = none ∧
      ((step twoPeerState (.close 2)).2.filter (isPeerLeftFor 1 2)).length = 1) ∧
    (step twoPeerState (.close 3)).2 = [] :=
  ⟨⟨((close_broadcasts twoPeerState 2 conn2 (by decide) rfl).1 rfl).1,
    ((close_broadcasts twoPeerState 2 conn2 (by decide) rfl).1 rfl).2.2
      1 conn1 rfl rfl (by decide)⟩,
   (close_broadcasts twoPeerState 3 conn3 (by decide) rfl).2 rfl⟩

/-- The auth-transition update applied in place by `step .authValid`. -/
def authUpdate (cid : Nat) (ident : Identity) (c : Conn) : Conn :=
  if c.connectionId == cid then { c with state := .authenticated, identity := some ident }
  else c

/-- Looking up in the registry after the in-place auth update is the update
of the original lookup (the update preserves connectionIds). -/
lemma getConn_authUpdate (reg : List Conn) (dir dir' : List (Nat × Identity))
    (cid0 cid : Nat) (ident : Identity) :
    getConn ⟨reg.map (authUpdate cid0 ident), dir'⟩ cid =
      (getConn ⟨reg, dir⟩ cid).map (authUpdate cid0 ident) := by
  rw [getConn, getConn, List.find?_map]
  have hp : ((fun c : Conn => c.connectionId == cid) ∘ authUpdate cid0 ident) =
      fun c : Conn => c.connectionId == cid := by
    funext c2
    by_cases h : c2.connectionId = cid0 <;> simp [Function.comp, authUpdate, h]
  rw [hp]

/-- Registering a fresh connection does not disturb the lookup of an
existing one. -/
lemma getConn_append_entry (reg : List Conn) (dir dir' : List (Nat × Identity))
    (e : Conn) (cid : Nat) (c : Conn)
    (h : getConn ⟨reg, dir⟩ cid = some c) :
    getConn ⟨reg ++ [e], dir'⟩ cid = some c := by
  rw [getConn, List.find?_append]
  rw [getConn] at h
  rw [h]
  rfl

/-- The relay router never mutates the core state. -/
lemma step_clientMsg_fst (s : CoreState) (cid : Nat) (ty : String)
    (p : RelayPayload) :
    (step s (.clientMsg cid ty p)).1 = s := by
  by_cases hty : ty = "auth"
  · simp [step, hty]
  · cases hg : getConn s cid with
    | none => simp [step, hty, hg]
    | some sender =>
      by_cases hs : sender.state = ConnState.authenticated
      · cases ht : getConn s p.targetClientId with
        | none => simp [step, hty, hg, hs, ht]
        | some t =>
          by_cases hta : t.state = ConnState.authenticated <;>
            simp [step, hty, hg, hs, ht, hta]
      · simp [step, hty, hg, hs]

/-- Modelled from the spec: only Authenticated entries carry an identity —
the registry invariant implied by "identity (present only when
Authenticated)" (spec section 3). -/
def IdentInv (s : CoreState) : Prop :=
  ∀ c ∈ s.registry, ∀ i : Identity, c.identity = some i →
    c.state = ConnState.authenticated

/-- C5: `identity` is assigned exactly at the Connecting→Authenticated
transition and never mutated afterwards: the invariant that only
Authenticated entries carry an identity holds initially and is preserved by
every operation, and under it any connection whose identity is set keeps
that same identity across every step that keeps it registered. -/
theorem identity_set_once (s : CoreState) (e : Event) :
    IdentInv initState ∧
    (IdentInv s → IdentInv (step s e).1) ∧
    (IdentInv s → ∀ (cid : Nat) (c c' : Conn) (i : Identity),
      getConn s cid = some c → c.identity = some i →
      getConn (step s e).1 cid = some c' → c'.identity = some i) := by
  refine ⟨fun c hc => absurd hc (List.not_mem_nil c), ?_, ?_⟩
  · -- invariant preservation
    intro hinv
    cases e with
    | register cid0 =>
      by_cases hreg : (getConn s cid0).isSome
      · simpa [step, hreg] using hinv
      · intro c hc i hi
        rw [step] at hc
        simp only [hreg, Bool.false_eq_true, if_false] at hc
        rcases List.mem_append.mp hc with hmem | hmem
        · exact hinv c hmem i hi
        · obtain rfl : c = ⟨cid0, .connecting, none⟩ := by simpa using hmem
          exact absurd hi (by simp)
    | authValid cid0 ident =>
      cases hg : getConn s cid0 with
      | none => simpa [step, hg] using hinv
      | some c0 =>
        by_cases h0 : c0.state = ConnState.connecting
        · intro c hc i hi
          rw [step] at hc
          simp only [hg, h0, if_true] at hc
          obtain ⟨c1, hc1, rfl⟩ := List.mem_map.mp hc
          by_cases hkey : c1.connectionId = cid0
          · simp [hkey]
          · simp only [hkey, beq_iff_eq, if_false] at hi ⊢
            exact hinv c1 hc1 i hi
        · simpa [step, hg, h0] using hinv
    | authInvalid cid0 =>
      cases hg : getConn s cid0 with
      | none => simpa [step, hg] using hinv
      | some c0 =>
        by_cases h0 : c0.state = ConnState.connecting
        · intro c hc i hi
          rw [step] at hc
          simp only [hg, h0, if_true] at hc
          exact hinv c (List.mem_of_mem_filter hc) i hi
        · simpa [step, hg, h0] using hinv
    | timeout cid0 =>
      cases hg : getConn s cid0 with
      | none => simpa [step, hg] using hinv
      | some c0 =>
        by_cases h0 : c0.state = ConnState.connecting
        · intro c hc i hi
          rw [step] at hc
          simp only [hg, h0, if_true] at hc
          exact hinv c (List.mem_of_mem_filter hc) i hi
        · simpa [step, hg, h0] using hinv
    | clientMsg cid0 ty p =>
      rw [step_clientMsg_fst]
      exact hinv
    | close cid0 =>
      cases hg : getConn s cid0 with
      | none => simpa [step, hg] using hinv
      | some c0 =>
        intro c hc i hi
        rw [step] at hc
        simp only [hg] at hc
        by_cases h0 : c0.state = ConnState.authenticated
        · simp only [h0, if_true] at hc
          exact hinv c (List.mem_of_mem_filter hc) i hi
        · simp only [h0, Bool.false_eq_true, if_false] at hc
          exact hinv c (List.mem_of_mem_filter hc) i hi
  · -- identity immutability
    intro hinv cid c c' i hc hi hc'
    cases e with
    | register cid0 =>
      by_cases hreg : (getConn s cid0).isSome
      · rw [step] at hc'
        simp only [hreg, if_true] at hc'
        rw [hc] at hc'
        obtain rfl : c = c' := by injection hc'
        exact hi
      · rw [step] at hc'
        simp only [hreg, Bool.false_eq_true, if_false] at hc'
        rw [show ({ s with registry := s.registry ++ [⟨cid0, .connecting, none⟩] } : CoreState) =
            ⟨s.registry ++ [⟨cid0, .connecting, none⟩], s.directory⟩ from rfl] at hc'
        rw [getConn_append_entry s.registry s.directory s.directory _ cid c (by rw [← hc])] at hc'
        obtain rfl : c = c' := by injection hc'
        exact hi
    | authValid cid0 ident =>
      cases hg : getConn s cid0 with
      | none =>
        rw [step] at hc'
        simp only [hg] at hc'
        rw [hc] at hc'
        obtain rfl : c = c' := by injection hc'
        exact hi
      | some c0 =>
        by_cases h0 : c0.state = ConnState.connecting
        · have hne : cid ≠ cid0 := by
            intro h
            rw [h, hg] at hc
            have hcc : c0 = c := by injection hc
            rw [← hcc] at hi
            rw [hinv c0 (getConn_mem hg) i hi] at h0
            exact ConnState.noConfusion h0
          rw [step] at hc'
          simp only [hg, h0, if_true] at hc'
          rw [show (fun c2 : Conn => if c2.connectionId == cid0 then
              { c2 with state := ConnState.authenticated, identity := some ident }
              else c2) = authUpdate cid0 ident from rfl] at hc'
          rw [getConn_authUpdate s.registry s.directory _ cid0 cid ident] at hc'
          rw [show getConn ⟨s.registry, s.directory⟩ cid = getConn s cid from rfl, hc] at hc'
          have : authUpdate cid0 ident c = c := by
            simp [authUpdate, getConn_key hc, hne]
          rw [Option.map_some', this] at hc'
          obtain rfl : c = c' := by injection hc'
          exact hi
        · rw [step] at hc'
          simp only [hg, h0, if_false] at hc'
          rw [hc] at hc'
          obtain rfl : c = c' := by injection hc'
          exact hi
    | authInvalid cid0 =>
      cases hg : getConn s cid0 with
      | none =>
        rw [step] at hc'
        simp only [hg] at hc'
        rw [hc] at hc'
        obtain rfl : c = c' := by injection hc'
        exact hi
      | some c0 =>
        by_cases h0 : c0.state = ConnState.connecting
        · by_cases hne : cid = cid0
          · subst hne
            rw [step] at hc'
            simp only [hg, h0, if_true] at hc'
            rw [getConn_remove_self] at hc'
            exact Option.noConfusion hc'
          · rw [step] at hc'
            simp only [hg, h0, if_true] at hc'
            rw [getConn_remove_other s.registry s.directory s.directory cid0 cid hne] at hc'
            rw [show getConn ⟨s.registry, s.directory⟩ cid = getConn s cid from rfl, hc] at hc'
            obtain rfl : c = c' := by injection hc'
            exact hi
        · rw [step] at hc'
          simp only [hg, h0, if_false] at hc'
          rw [hc] at hc'
          obtain rfl : c = c' := by injection hc'
          exact hi
    | timeout cid0 =>
      cases hg : getConn s cid0 with
      | none =>
        rw [step] at hc'
        simp only [hg] at hc'
        rw [hc] at hc'
        obtain rfl : c = c' := by injection hc'
        exact hi
      | some c0 =>
        by_cases h0 : c0.state = ConnState.connecting
        · by_cases hne : cid = cid0
          · subst hne
            rw [step] at hc'
            simp only [hg, h0, if_true] at hc'
            rw [getConn_remove_self] at hc'
            exact Option.noConfusion hc'
          · rw [step] at hc'
            simp only [hg, h0, if_true] at hc'
            rw [getConn_remove_other s.registry s.directory s.directory cid0 cid hne] at hc'
            rw [show getConn ⟨s.registry, s.directory⟩ cid = getConn s cid from rfl, hc] at hc'
            obtain rfl : c = c' := by injection hc'
            exact hi
        · rw [step] at hc'
          simp only [hg, h0, if_false] at hc'
          rw [hc] at hc'
          obtain rfl : c = c' := by injection hc'
          exact hi
    | clientMsg cid0 ty p =>
      rw [step_clientMsg_fst] at hc'
      rw [hc] at hc'
      obtain rfl : c = c' := by injection hc'
      exact hi
    | close cid0 =>
      cases hg : getConn s cid0 with
      | none =>
        rw [step] at hc'
        simp only [hg] at hc'
        rw [hc] at hc'
        obtain rfl : c = c' := by injection hc'
        exact hi
      | some c0 =>
        by_cases hne : cid = cid0
        · subst hne
          rw [step] at hc'
          simp only [hg] at hc'
          by_cases h0 : c0.state = ConnState.authenticated
          · simp only [h0, if_true] at hc'
            rw [getConn_remove_self] at hc'
            exact Option.noConfusion hc'
          · simp only [h0, Bool.false_eq_true, if_false] at hc'
            rw [getConn_remove_self] at hc'
            exact Option.noConfusion hc'
        · rw [step] at hc'
          simp only [hg] at hc'
          by_cases h0 : c0.state = ConnState.authenticated
          · simp only [h0, if_true] at hc'
            rw [getConn_remove_other s.registry s.directory _ cid0 cid hne] at hc'
            rw [show getConn ⟨s.registry, s.directory⟩ cid = getConn s cid from rfl, hc] at hc'
            obtain rfl : c = c' := by injection hc'
            exact hi
          · simp only [h0, Bool.false_eq_true, if_false] at hc'
            rw [getConn_remove_other s.registry s.directory _ cid0 cid hne] at hc'
            rw [show getConn ⟨s.registry, s.directory⟩ cid = getConn s cid from rfl, hc] at hc'
            obtain rfl : c = c' := by injection hc'
            exact hi

/-- The witness state satisfies the identity invariant. -/
lemma twoPeerState_identInv : IdentInv twoPeerState := by
  intro c hc i hi
  simp only [twoPeerState, List.mem_cons, List.not_mem_nil, or_false] at hc
  rcases hc with rfl | rfl | rfl
  · rfl
  · rfl
  · simp [conn3] at hi

/-- Witness for C5: after Carol's auth step on `twoPeerState`, connection 1
is still registered with Alice's identity unchanged. -/
theorem identity_set_once_witness :
    conn1.identity = some aliceId :=
  (identity_set_once twoPeerState (.authValid 3 carolId)).2.2
    twoPeerState_identInv 1 conn1 conn1 aliceId rfl rfl rfl

/-- Looking up an absent connection after registering a fresh one only sees
the fresh entry. -/
lemma getConn_append_none (reg : List Conn) (dir dir' : List (Nat × Identity))
    (e : Conn) (cid : Nat) (h : getConn ⟨reg, dir⟩ cid = none) :
    getConn ⟨reg ++ [e], dir'⟩ cid =
      if e.connectionId == cid then some e else none := by
  rw [getConn, List.find?_append]
  rw [getConn] at h
  rw [h]
  cases he : e.connectionId == cid <;> simp [List.find?, he]

/-- Modelled from the spec: the Peer Directory invariant — a connectionId is
in the directory exactly when its registry entry is Authenticated (spec
section 3, "Peer Directory"). -/
def DirOK (s : CoreState) : Prop :=
  ∀ cid : Nat, (∃ i, (cid, i) ∈ s.directory) ↔
    (∃ c, getConn s cid = some c ∧ c.state = ConnState.authenticated)

/-- C6: the Peer Directory lists a connectionId iff that connection is
Authenticated in the Registry: this holds in the initial state and is
preserved by every operation of the core. -/
theorem directory_matches_registry (s : CoreState) (e : Event) :
    DirOK initState ∧ (DirOK s → DirOK (step s e).1) := by
  constructor
  · intro cid
    simp [initState, getConn]
  · intro hd
    cases e with
    | register cid0 =>
      by_cases hreg : (getConn s cid0).isSome
      · simpa [step, hreg] using hd
      · have hnone : getConn s cid0 = none := by
          cases h : getConn s cid0
          · rfl
          · rw [h] at hreg; simp at hreg
        have hs' : (step s (.register cid0)).1 =
            ⟨s.registry ++ [⟨cid0, .connecting, none⟩], s.directory⟩ := by
          simp [step, hreg]
        rw [hs']
        intro cid
        by_cases hcc : cid = cid0
        · subst hcc
          rw [getConn_append_none s.registry s.directory s.directory _ cid hnone]
          constructor
          · intro h
            obtain ⟨c, hc, _⟩ := (hd cid).mp h
            rw [hnone] at hc
            exact Option.noConfusion hc
          · rintro ⟨c, hc, hca⟩
            simp only [beq_self_eq_true, if_true] at hc
            have : (⟨cid, .connecting, none⟩ : Conn) = c := by injection hc
            rw [← this] at hca
            exact ConnState.noConfusion hca
        · have heq : getConn ⟨s.registry ++ [⟨cid0, .connecting, none⟩], s.directory⟩ cid =
              getConn s cid := by
            cases h : getConn s cid with
            | some c => exact getConn_append_entry s.registry s.directory s.directory _ cid c h
            | none =>
              rw [getConn_append_none s.registry s.directory s.directory _ cid h]
              simp [Ne.symm hcc]
          rw [heq]
          exact hd cid
    | authValid cid0 ident =>
      cases hg : getConn s cid0 with
      | none => simpa [step, hg] using hd
      | some c0 =>
        by_cases h0 : c0.state = ConnState.connecting
        · have hs' : (step s (.authValid cid0 ident)).1 =
              ⟨s.registry.map (authUpdate cid0 ident), s.directory ++ [(cid0, ident)]⟩ := by
            simp only [step, hg, h0, if_true]
            rfl
          rw [hs']
          intro cid
          by_cases hcc : cid = cid0
          · subst hcc
            constructor
            · intro _
              refine ⟨authUpdate cid ident c0, ?_, ?_⟩
              · rw [getConn_authUpdate s.registry s.directory _ cid cid ident]
                rw [show getConn ⟨s.registry, s.directory⟩ cid = getConn s cid from rfl,
                  hg, Option.map_some']
              · simp [authUpdate, getConn_key hg]
            · intro _
              exact ⟨ident, by simp⟩
          · constructor
            · rintro ⟨i, hi⟩
              rw [List.mem_append] at hi
              rcases hi with hi | hi
              · obtain ⟨c, hc, hca⟩ := (hd cid).mp ⟨i, hi⟩
                refine ⟨authUpdate cid0 ident c, ?_, ?_⟩
                · rw [getConn_authUpdate s.registry s.directory _ cid0 cid ident]
                  rw [show getConn ⟨s.registry, s.directory⟩ cid = getConn s cid from rfl,
                    hc, Option.map_some']
                · have : authUpdate cid0 ident c = c := by
                    simp [authUpdate, getConn_key hc, hcc]
                  rw [this]
                  exact hca
              · rw [List.mem_singleton, Prod.mk.injEq] at hi
                exact absurd hi.1 hcc
            · rintro ⟨c', hc', hca'⟩
              rw [getConn_authUpdate s.registry s.directory _ cid0 cid ident] at hc'
              cases h : getConn s cid with
              | none =>
                rw [show getConn ⟨s.registry, s.directory⟩ cid = getConn s cid from rfl,
                  h] at hc'
                exact Option.noConfusion hc'
              | some c =>
                rw [show getConn ⟨s.registry, s.directory⟩ cid = getConn s cid from rfl,
                  h, Option.map_some'] at hc'
                have hgc : authUpdate cid0 ident c = c := by
                  simp [authUpdate, getConn_key h, hcc]
                rw [hgc] at hc'
                have : c = c' := by injection hc'
                rw [← this] at hca'
                have := (hd cid).mpr ⟨c, h, hca'⟩
                obtain ⟨i, hi⟩ := this
                exact ⟨i, List.mem_append.mpr (Or.inl hi)⟩
        · simpa [step, hg, h0] using hd
    | authInvalid cid0 =>
      cases hg : getConn s cid0 with
      | none => simpa [step, hg] using hd
      | some c0 =>
        by_cases h0 : c0.state = ConnState.connecting
        · have hs' : (step s (.authInvalid cid0)).1 =
              ⟨removeConn s.registry cid0, s.directory⟩ := by
            simp [step, hg, h0]
          rw [hs']
          intro cid
          by_cases hcc : cid = cid0
          · subst hcc
            constructor
            · intro h
              obtain ⟨c, hc, hca⟩ := (hd cid).mp h
              rw [hg] at hc
              have : c0 = c := by injection hc
              rw [← this] at hca
              rw [h0] at hca
              exact ConnState.noConfusion hca
            · rintro ⟨c, hc, _⟩
              rw [getConn_remove_self] at hc
              exact Option.noConfusion hc
          · rw [getConn_remove_other s.registry s.directory s.directory cid0 cid hcc]
            exact hd cid
        · simpa [step, hg, h0] using hd
    | timeout cid0 =>
      cases hg : getConn s cid0 with
      | none => simpa [step, hg] using hd
      | some c0 =>
        by_cases h0 : c0.state = ConnState.connecting
        · have hs' : (step s (.timeout cid0)).1 =
              ⟨removeConn s.registry cid0, s.directory⟩ := by
            simp [step, hg, h0]
          rw [hs']
          intro cid
          by_cases hcc : cid = cid0
          · subst hcc
            constructor
            · intro h
              obtain ⟨c, hc, hca⟩ := (hd cid).mp h
              rw [hg] at hc
              have : c0 = c := by injection hc
              rw [← this] at hca
              rw [h0] at hca
              exact ConnState.noConfusion hca
            · rintro ⟨c, hc, _⟩
              rw [getConn_remove_self] at hc
              exact Option.noConfusion hc
          · rw [getConn_remove_other s.registry s.directory s.directory cid0 cid hcc]
            exact hd cid
        · simpa [step, hg, h0] using hd
    | clientMsg cid0 ty p =>
      rw [step_clientMsg_fst]
      exact hd
    | close cid0 =>
      cases hg : getConn s cid0 with
      | none => simpa [step, hg] using hd
      | some c0 =>
        by_cases h0 : c0.state = ConnState.authenticated
        · have hs' : (step s (.close cid0)).1 =
              ⟨removeConn s.registry cid0,
                s.directory.filter (fun p => !(p.1 == cid0))⟩ := by
            simp [step, hg, h0]
          rw [hs']
          intro cid
          by_cases hcc : cid = cid0
          · subst hcc
            constructor
            · rintro ⟨i, hi⟩
              rw [List.mem_filter] at hi
              simpa using hi.2
            · rintro ⟨c, hc, _⟩
              rw [getConn_remove_self] at hc
              exact Option.noConfusion hc
          · have hlhs : (∃ i, (cid, i) ∈ s.directory.filter (fun p => !(p.1 == cid0))) ↔
                (∃ i, (cid, i) ∈ s.directory) := by
              constructor
              · rintro ⟨i, hi⟩
                exact ⟨i, (List.mem_filter.mp hi).1⟩
              · rintro ⟨i, hi⟩
                exact ⟨i, List.mem_filter.mpr ⟨hi, by simp [hcc]⟩⟩
            rw [getConn_remove_other s.registry s.directory _ cid0 cid hcc]
            exact hlhs.trans (hd cid)
        · have hs' : (step s (.close cid0)).1 =
              ⟨removeConn s.registry cid0, s.directory⟩ := by
            simp [step, hg, h0]
          rw [hs']
          intro cid
          by_cases hcc : cid = cid0
          · subst hcc
            constructor
            · intro h
              obtain ⟨c, hc, hca⟩ := (hd cid).mp h
              rw [hg] at hc
              have : c0 = c := by injection hc
              rw [← this] at hca
              exact absurd hca h0
            · rintro ⟨c, hc, _⟩
              rw [getConn_remove_self] at hc
              exact Option.noConfusion hc
          · rw [getConn_remove_other s.registry s.directory s.directory cid0 cid hcc]
            exact hd cid

/-- The witness state satisfies the directory invariant. -/
lemma twoPeerState_dirOK : DirOK twoPeerState := by
  intro cid
  by_cases h1 : cid = 1
  · subst h1
    constructor
    · intro _
      exact ⟨conn1, rfl, rfl⟩
    · intro _
      exact ⟨aliceId, by simp [twoPeerState]⟩
  · by_cases h2 : cid = 2
    · subst h2
      constructor
      · intro _
        exact ⟨conn2, rfl, rfl⟩
      · intro _
        exact ⟨bobId, by simp [twoPeerState]⟩
    · by_cases h3 : cid = 3
      · subst h3
        constructor
        · rintro ⟨i, hi⟩
          simp [twoPeerState] at hi
        · rintro ⟨c, hc, hca⟩
          rw [show getConn twoPeerState 3 = some conn3 from rfl] at hc
          have : conn3 = c := by injection hc
          rw [← this] at hca
          exact ConnState.noConfusion hca
      · have hnone : getConn twoPeerState cid = none := by
          rw [getConn, List.find?_eq_none]
          intro x hx
          simp only [twoPeerState, List.mem_cons, List.not_mem_nil, or_false] at hx
          rcases hx with rfl | rfl | rfl <;>
            simp [conn1, conn2, conn3, Ne.symm h1, Ne.symm h2, Ne.symm h3]
        constructor
        · rintro ⟨i, hi⟩
          simp only [twoPeerState, List.mem_cons, List.not_mem_nil, or_false,
            Prod.mk.injEq] at hi
          rcases hi with ⟨h, _⟩ | ⟨h, _⟩
          · exact absurd h h1
          · exact absurd h h2
        · rintro ⟨c, hc, _⟩
          rw [hnone] at hc
          exact Option.noConfusion hc

/-- Witness for C6: the directory invariant survives Carol's auth step on
`twoPeerState`. -/
theorem directory_matches_registry_witness :
    DirOK (step twoPeerState (.authValid 3 carolId)).1 :=
  (directory_matches_registry twoPeerState (.authValid 3 carolId)).2
    twoPeerState_dirOK

/-- `cid` has no Authenticated entry in the registry. -/
def NotAuthed (s : CoreState) (cid : Nat) : Prop :=
  ∀ c ∈ s.registry, c.connectionId = cid → c.state ≠ ConnState.authenticated

/-- A connection that does not authenticate in a step stays unauthenticated. -/
lemma notAuthed_step (s : CoreState) (e : Event) (cid : Nat)
    (h : NotAuthed s cid) (he : ∀ i, e ≠ Event.authValid cid i) :
    NotAuthed (step s e).1 cid := by
  cases e with
  | register cid0 =>
    by_cases hreg : (getConn s cid0).isSome
    · simpa [step, hreg] using h
    · intro c hc hkey
      rw [step] at hc
      simp only [hreg, Bool.false_eq_true, if_false] at hc
      rcases List.mem_append.mp hc with hmem | hmem
      · exact h c hmem hkey
      · obtain rfl : c = ⟨cid0, .connecting, none⟩ := by simpa using hmem
        simp
  | authValid cid0 ident =>
    have hne : cid0 ≠ cid := by
      intro hEq
      exact he ident (by rw [hEq])
    cases hg : getConn s cid0 with
    | none => simpa [step, hg] using h
    | some c0 =>
      by_cases h0 : c0.state = ConnState.connecting
      · intro c hc hkey
        rw [step] at hc
        simp only [hg, h0, if_true] at hc
        obtain ⟨c1, hc1, rfl⟩ := List.mem_map.mp hc
        by_cases hk1 : c1.connectionId = cid0
        · rw [show (if (c1.connectionId == cid0) = true then
              { c1 with state := ConnState.authenticated, identity := some ident }
              else c1).connectionId = c1.connectionId by
                by_cases hb : (c1.connectionId == cid0) = true <;> simp [hb]] at hkey
          rw [hkey] at hk1
          exact absurd hk1.symm hne
        · have : (if (c1.connectionId == cid0) = true then
              { c1 with state := ConnState.authenticated, identity := some ident }
              else c1) = c1 := by simp [hk1]
          rw [this] at hkey ⊢
          exact h c1 hc1 hkey
      · simpa [step, hg, h0] using h
  | authInvalid cid0 =>
    cases hg : getConn s cid0 with
    | none => simpa [step, hg] using h
    | some c0 =>
      by_cases h0 : c0.state = ConnState.connecting
      · intro c hc hkey
        rw [step] at hc
        simp only [hg, h0, if_true] at hc
        exact h c (List.mem_of_mem_filter hc) hkey
      · simpa [step, hg, h0] using h
  | timeout cid0 =>
    cases hg : getConn s cid0 with
    | none => simpa [step, hg] using h
    | some c0 =>
      by_cases h0 : c0.state = ConnState.connecting
      · intro c hc hkey
        rw [step] at hc
        simp only [hg, h0, if_true] at hc
        exact h c (List.mem_of_mem_filter hc) hkey
      · simpa [step, hg, h0] using h
  | clientMsg cid0 ty p =>
    rw [step_clientMsg_fst]
    exact h
  | close cid0 =>
    cases hg : getConn s cid0 with
    | none => simpa [step, hg] using h
    | some c0 =>
      intro c hc hkey
      rw [step] at hc
      simp only [hg] at hc
      by_cases h0 : c0.state = ConnState.authenticated
      · simp only [h0, if_true] at hc
        exact h c (List.mem_of_mem_filter hc) hkey
      · simp only [h0, Bool.false_eq_true, if_false] at hc
        exact h c (List.mem_of_mem_filter hc) hkey

/-- The relay router only ever emits `relayed` frames. -/
lemma step_clientMsg_snd (s : CoreState) (cid0 : Nat) (ty : String)
    (p : RelayPayload) :
    (step s (.clientMsg cid0 ty p)).2 = [] ∨
      ∃ q, (step s (.clientMsg cid0 ty p)).2 =
        [(p.targetClientId, WireMsg.relayed ty q)] := by
  by_cases hty : ty = "auth"
  · exact Or.inl (by simp [step, hty])
  · cases hg : getConn s cid0 with
    | none => exact Or.inl (by simp [step, hty, hg])
    | some sender =>
      by_cases hs : sender.state = ConnState.authenticated
      · cases ht : getConn s p.targetClientId with
        | none => exact Or.inl (by simp [step, hty, hg, hs, ht])
        | some t =>
          by_cases hta : t.state = ConnState.authenticated
          · exact Or.inr ⟨{ p with sourceClientId := some cid0 },
              by simp [step, hty, hg, hs, ht, hta]⟩
          · exact Or.inl (by simp [step, hty, hg, hs, ht, hta])
      · exact Or.inl (by simp [step, hty, hg, hs])

/-- A step taken while `cid` is unauthenticated — and which is not a
successful auth of `cid` itself — never announces `cid` as a peer. -/
lemma step_no_mention (s : CoreState) (e : Event) (cid : Nat)
    (h : NotAuthed s cid) (he : ∀ i, e ≠ Event.authValid cid i) :
    ∀ m ∈ (step s e).2, ¬ mentionsAsPeer cid m.2 := by
  cases e with
  | register cid0 =>
    intro m hm
    by_cases hreg : (getConn s cid0).isSome
    · rw [step] at hm
      simp only [hreg, if_true] at hm
      exact absurd hm (List.not_mem_nil m)
    · rw [step] at hm
      simp only [hreg, Bool.false_eq_true, if_false] at hm
      exact absurd hm (List.not_mem_nil m)
  | authValid cid0 ident =>
    have hne : cid0 ≠ cid := by
      intro hEq
      exact he ident (by rw [hEq])
    cases hg : getConn s cid0 with
    | none =>
      intro m hm
      rw [step] at hm
      simp only [hg] at hm
      exact absurd hm (List.not_mem_nil m)
    | some c0 =>
      by_cases h0 : c0.state = ConnState.connecting
      · intro m hm
        rw [step] at hm
        simp only [hg, h0, if_true] at hm
        rcases List.mem_cons.mp hm with rfl | hm
        · rintro ⟨q, hq, hq1⟩
          rw [peerSnapshot, List.mem_filterMap] at hq
          obtain ⟨c2, hc2, hmap⟩ := hq
          have hc2' := List.mem_filter.mp hc2
          have hc2'' := List.mem_filter.mp hc2'.1
          have hauth : c2.state = ConnState.authenticated := by
            simpa using hc2''.2
          cases hid : c2.identity with
          | none => rw [hid] at hmap; exact Option.noConfusion hmap
          | some i2 =>
            rw [hid, Option.map_some'] at hmap
            have : (c2.connectionId, i2) = q := by injection hmap
            rw [← this] at hq1
            exact h c2 hc2''.1 hq1 hauth
        · obtain ⟨c2, _, rfl⟩ := List.mem_map.mp hm
          intro hmention
          exact hne hmention
      · intro m hm
        rw [step] at hm
        simp only [hg, h0, if_false] at hm
        exact absurd hm (List.not_mem_nil m)
  | authInvalid cid0 =>
    intro m hm
    rw [step] at hm
    cases hg : getConn s cid0 with
    | none =>
      rw [hg] at hm
      exact absurd hm (List.not_mem_nil m)
    | some c0 =>
      rw [hg] at hm
      by_cases h0 : c0.state = ConnState.connecting <;>
        simp only [h0, if_true, if_false] at hm <;>
        exact absurd hm (List.not_mem_nil m)
  | timeout cid0 =>
    intro m hm
    rw [step] at hm
    cases hg : getConn s cid0 with
    | none =>
      rw [hg] at hm
      exact absurd hm (List.not_mem_nil m)
    | some c0 =>
      rw [hg] at hm
      by_cases h0 : c0.state = ConnState.connecting <;>
        simp only [h0, if_true, if_false] at hm <;>
        exact absurd hm (List.not_mem_nil m)
  | clientMsg cid0 ty p =>
    intro m hm
    rcases step_clientMsg_snd s cid0 ty p with hout | ⟨q, hout⟩
    · rw [hout] at hm
      exact absurd hm (List.not_mem_nil m)
    · rw [hout] at hm
      obtain rfl : m = (p.targetClientId, WireMsg.relayed ty q) := by simpa using hm
      exact id
  | close cid0 =>
    intro m hm
    cases hg : getConn s cid0 with
    | none =>
      rw [step] at hm
      simp only [hg] at hm
      exact absurd hm (List.not_mem_nil m)
    | some c0 =>
      rw [step] at hm
      simp only [hg] at hm
      by_cases h0 : c0.state = ConnState.authenticated
      · simp only [h0, if_true] at hm
        obtain ⟨c2, _, rfl⟩ := List.mem_map.mp hm
        exact id
      · simp only [h0, Bool.false_eq_true, if_false] at hm
        exact absurd hm (List.not_mem_nil m)

/-- Over a whole run, a connection that never successfully authenticates
stays unauthenticated and is never announced as a peer. -/
lemma runFrom_no_mention (cid : Nat) : ∀ (es : List Event) (s : CoreState),
    NotAuthed s cid → (∀ i, Event.authValid cid i ∉ es) →
    NotAuthed (runFrom s es).1 cid ∧
    ∀ m ∈ (runFrom s es).2, ¬ mentionsAsPeer cid m.2 := by
  intro es
  induction es with
  | nil =>
    intro s h _
    exact ⟨h, by simp [runFrom]⟩
  | cons e es ih =>
    intro s h hne
    have he : ∀ i, e ≠ Event.authValid cid i := by
      intro i hEq
      exact hne i (by rw [← hEq]; exact List.mem_cons_self e es)
    have hes : ∀ i, Event.authValid cid i ∉ es :=
      fun i hi => hne i (List.mem_cons_of_mem e hi)
    obtain ⟨h1, h2⟩ := ih (step s e).1 (notAuthed_step s e cid h he) hes
    refine ⟨h1, ?_⟩
    intro m hm
    rw [runFrom, List.mem_append] at hm
    rcases hm with hm | hm
    · exact step_no_mention s e cid h he m hm
    · exact h2 m hm

/-- C3: a connection for which no valid `auth` ever arrives is never listed
in any `existingPeers` snapshot nor announced by any `new-peer` over the
whole run; and when its deadline fires while it is still Connecting, the
timeout force-closes it — it is gone from the Registry — without emitting
anything. -/
theorem unauthed_closed_never_announced (es : List Event) (cid : Nat)
    (hnoauth : ∀ i : Identity, Event.authValid cid i ∉ es) :
    (∀ m ∈ (run es).2, ¬ mentionsAsPeer cid m.2) ∧
    (∀ (s : CoreState) (c : Conn), getConn s cid = some c →
      c.state = ConnState.connecting →
      getConn (step s (.timeout cid)).1 cid = none ∧
      (step s (.timeout cid)).2 = []) := by
  constructor
  · exact (runFrom_no_mention cid es initState
      (fun c hc _ => absurd hc (List.not_mem_nil c)) hnoauth).2
  · intro s c hc hcs
    have hs' : (step s (.timeout cid)).1 =
        ⟨removeConn s.registry cid, s.directory⟩ := by
      simp [step, hc, hcs]
    refine ⟨?_, ?_⟩
    · rw [hs']
      exact getConn_remove_self _ _ _
    · simp [step, hc, hcs]

/-- Witness for C3: in a run where 3 registers and times out amid two
successful peers, 3 is never announced (checked on the `new-peer` frame
that the run does send), and the timeout removes 3 from `twoPeerState`
silently. -/
theorem unauthed_closed_never_announced_witness :
    (¬ mentionsAsPeer 3 (WireMsg.newPeer 2 bobId)) ∧
    getConn (step twoPeerState (.timeout 3)).1 3 = none ∧
    (step twoPeerState (.timeout 3)).2 = [] :=
  ⟨(unauthed_closed_never_announced
      [Event.register 1, Event.authValid 1 aliceId, Event.register 3,
        Event.timeout 3, Event.register 2, Event.authValid 2 bobId] 3
      (by intro i; simp)).1 (1, WireMsg.newPeer 2 bobId) (by decide),
   (unauthed_closed_never_announced [] 3
      (fun i => List.not_mem_nil (Event.authValid 3 i))).2
     twoPeerState conn3 rfl rfl⟩

end ChatHub
